import Mathlib

/-!
Shallow embedding of `src/memory.ts` (class `VirtualMemory` and the free
functions `writeString` / `readString`).

Modelling conventions:
* JavaScript `Map` objects are modelled as insertion-ordered association
  lists.  `Map.set` on a fresh key appends at the end; on an existing key it
  updates the first (and, in any state the code can build, only) entry in
  place.  `Map.delete` removes the first entry with the key.  Iteration order
  of `for(const [k,v] of map)` is insertion order, which the association list
  preserves.
* `Uint8Array` buffers are `List Nat`; every stored byte is produced either
  as `0` (fresh allocation, `clear`) or by a `% 256` coercion of the scalar
  encoders, matching the typed-array coercions of the host.
* Numbers that the source constrains to be non-negative integers (sizes,
  addresses, offsets, lengths) are modelled as `Nat`; a source check of the
  shape `x < 0` is unrepresentable and a check `x <= 0` becomes `x = 0`.
  Scalar values given to the 8/16/32-bit signed writers and the 64-bit
  writers are modelled as `Int` (JS `number` / `bigint`), wrapped exactly as
  the corresponding typed array wraps them.
* A thrown `RangeError` / `TypeError` / `Error` is an `Except.error`; because
  a JS exception does not roll back mutations already performed, every
  state-changing operation returns the post-call state alongside the result,
  also on the error path.
* The `instanceof Uint8Array` type guards of the source always pass in the
  typed model and are noted where they occur.
* The host text encoder / decoder (`Buffer.from(value, encoding)`,
  `TextDecoder`) is external to the repository; `writeString` / `readString`
  take the encoding as an explicit function parameter, mirroring the
  `encoding` argument of the source.
-/

/-- Errors thrown by the source: `RangeError`, `TypeError` and plain
`Error`, each with the message used at the throw site. -/
inductive MemError where
  | rangeError (msg : String)
  | typeError (msg : String)
  | plainError (msg : String)
deriving DecidableEq, Repr

/-- Insertion-ordered association-list lookup: the value of the first entry
with the given key, as JS `Map.get`. -/
def mapGet {α β : Type} [DecidableEq α] : List (α × β) → α → Option β
  | [], _ => none
  | p :: rest, k => if p.1 = k then some p.2 else mapGet rest k

/-- JS `Map.has`. -/
def mapHas {α β : Type} [DecidableEq α] (m : List (α × β)) (k : α) : Bool :=
  (mapGet m k).isSome

/-- JS `Map.set`: update the first entry with the key in place, or append a
new entry at the end. -/
def mapSet {α β : Type} [DecidableEq α] : List (α × β) → α → β → List (α × β)
  | [], k, v => [(k, v)]
  | p :: rest, k, v => if p.1 = k then (k, v) :: rest else p :: mapSet rest k v

/-- JS `Map.delete`: remove the first entry with the key. -/
def mapDelete {α β : Type} [DecidableEq α] : List (α × β) → α → List (α × β)
  | [], _ => []
  | p :: rest, k => if p.1 = k then rest else p :: mapDelete rest k

/-- `MAX_SAFE_MEMORY_SIZE = floor((Number.MAX_SAFE_INTEGER - 1) / 8)` with
`Number.MAX_SAFE_INTEGER = 2^53 - 1`. -/
def MAX_SAFE_MEMORY_SIZE : Nat := (2 ^ 53 - 1 - 1) / 8

/-- The state of one `VirtualMemory` instance: the private fields
`#mappedAddressNames`, `#memory`, `#occupiedAddresses` and `#capacity`. -/
structure VirtualMemory where
  mappedAddressNames : List (String × Nat)
  memory : List (Nat × List Nat)
  occupiedAddresses : List Nat
  capacity : Nat
deriving DecidableEq, Repr

namespace VirtualMemory

/-- The constructor: empty maps, the requested capacity.  The source throws
when `capacity > MAX_SAFE_MEMORY_SIZE`; `init` is only used below under that
bound, matching the states the constructor can produce. -/
def init (capacity : Nat) : VirtualMemory :=
  { mappedAddressNames := [], memory := [], occupiedAddresses := [], capacity := capacity }

/-- `size()`: the number of entries of the `#memory` map. -/
def size (s : VirtualMemory) : Nat := s.memory.length

/-- The running sum of the `byteLength()` loop over the stored buffers. -/
def byteSum : List (Nat × List Nat) → Nat
  | [] => 0
  | p :: rest => p.2.length + byteSum rest

/-- `byteLength()`: the sum of the byte lengths of all stored buffers.  The
`instanceof Uint8Array` guard of the source always passes in the model. -/
def byteLength (s : VirtualMemory) : Nat := byteSum s.memory

/-- `has(address)`. -/
def memHas (s : VirtualMemory) (address : Nat) : Bool := mapHas s.memory address

/-- `hasVar(name)`. -/
def hasVar (s : VirtualMemory) (name : String) : Bool := mapHas s.mappedAddressNames name

/-- Monotonicity of the probe measure: raising the candidate cannot grow the
count of keys at or above it. -/
theorem probeMeasure_succ_le (keys : List Nat) (a : Nat) :
    (keys.filter fun k => a + 1 ≤ k).length ≤ (keys.filter fun k => a ≤ k).length := by
  induction keys with
  | nil => simp
  | cons x xs ih =>
      by_cases h1 : a + 1 ≤ x
      · have h0 : a ≤ x := Nat.le_of_succ_le h1
        simp [List.filter_cons, h1, h0]
        omega
      · by_cases h0 : a ≤ x <;> simp [List.filter_cons, h1, h0] <;> omega

/-- Strict decrease of the probe measure at an occupied candidate. -/
theorem probeMeasure_lt {keys : List Nat} {a : Nat} (h : a ∈ keys) :
    (keys.filter fun k => a + 1 ≤ k).length < (keys.filter fun k => a ≤ k).length := by
  induction keys with
  | nil => simp at h
  | cons x xs ih =>
      rcases List.mem_cons.mp h with rfl | hx
      · have hle := probeMeasure_succ_le xs a
        have h1 : ¬ (a + 1 ≤ a) := by omega
        simp [List.filter_cons, h1]
        omega
      · have hlt := ih hx
        by_cases h1 : a + 1 ≤ x
        · have h0 : a ≤ x := Nat.le_of_succ_le h1
          simp [List.filter_cons, h1, h0]
          omega
        · by_cases h0 : a ≤ x <;> simp [List.filter_cons, h1, h0] <;> omega

/-- The `while(this.has(address)) address++` probe of `alloc`, over the key
set of `#memory`. -/
def probeFrom (keys : List Nat) (a : Nat) : Nat :=
  if a ∈ keys then probeFrom keys (a + 1) else a
termination_by (keys.filter fun k => a ≤ k).length
decreasing_by exact probeMeasure_lt (by assumption)

/-- The starting candidate of `alloc`:
`this.#occupiedAddresses.length > 0 ? math.max(...this.#occupiedAddresses) + 1 : this.size()`.
`math.max` over a non-empty list is its maximum; the model folds with `max`. -/
def allocStart (s : VirtualMemory) : Nat :=
  if 0 < s.occupiedAddresses.length then s.occupiedAddresses.foldr max 0 + 1 else s.size

/-- The address `alloc` settles on: the probe loop run from the starting
candidate. -/
def allocAddress (s : VirtualMemory) : Nat :=
  probeFrom (s.memory.map Prod.fst) (allocStart s)

/-- `alloc(size)`: size and capacity checks, then the address probe, then
insertion of a zero buffer at the probed address. -/
def alloc (s : VirtualMemory) (sz : Nat) : Except MemError Nat × VirtualMemory :=
  if sz = 0 then
    (.error (.rangeError "Memory allocation size must be greater than 0"), s)
  else if s.capacity < s.byteLength + sz then
    (.error (.rangeError "Memory allocation exceeds the memory capacity"), s)
  else
    (.ok (allocAddress s),
      { s with memory := mapSet s.memory (allocAddress s) (List.replicate sz 0) })

/-- `setVar(name, address)`: duplicate-name error, otherwise record the
binding. -/
def setVar (s : VirtualMemory) (name : String) (address : Nat) :
    Except MemError Unit × VirtualMemory :=
  if s.hasVar name then (.error (.plainError "Variable name already exists"), s)
  else (.ok (), { s with mappedAddressNames := mapSet s.mappedAddressNames name address })

/-- The `for(const [name, mappedAddress] of this.#mappedAddressNames)` loop
of `free`: delete the first binding (in insertion order) whose address is the
freed one, then `break`. -/
def removeFirstBound : List (String × Nat) → Nat → List (String × Nat)
  | [], _ => []
  | p :: rest, a => if p.2 = a then rest else p :: removeFirstBound rest a

/-- `free(address)`. -/
def free (s : VirtualMemory) (address : Nat) : Except MemError Bool × VirtualMemory :=
  if ¬ s.memHas address then (.ok false, s)
  else
    (.ok true,
      { s with
        memory := mapDelete s.memory address
        occupiedAddresses := s.occupiedAddresses.filter (fun occupiedAddress => occupiedAddress ≠ address)
        mappedAddressNames := removeFirstBound s.mappedAddressNames address })

/-- `freeVar(name)`: the `as number` cast of the source is total here because
the branch is only reached when the name is bound. -/
def freeVar (s : VirtualMemory) (name : String) : Except MemError Bool × VirtualMemory :=
  if ¬ s.hasVar name then (.ok false, s)
  else free s ((mapGet s.mappedAddressNames name).getD 0)

/-- `erase()`. -/
def erase (s : VirtualMemory) : VirtualMemory :=
  { s with memory := [], occupiedAddresses := [], mappedAddressNames := [] }

/-- `read(address, length?, offset = 0)`.  The source returns the stored
buffer itself for a full-block read and a `subarray` view otherwise; both
carry the same bytes, which is what the model returns (the aliasing of the
underlying buffer is modelled where it is observable, in `readUint32`).  The
`instanceof Uint8Array` guard always passes.  `read` never mutates, so it
returns no state. -/
def read (s : VirtualMemory) (address : Nat) (len? : Option Nat) (offset : Nat) :
    Except MemError (Option (List Nat)) :=
  if ¬ s.memHas address then .ok none
  else
    let memo := (mapGet s.memory address).getD []
    let len := len?.getD memo.length
    if memo.length ≤ offset then .error (.rangeError "Invalid memory read offset")
    else if len = 0 ∨ memo.length < offset + len then
      .error (.rangeError "Invalid memory read length")
    else .ok (some ((memo.drop offset).take len))

/-- `readVar(name, length?, offset = 0)`. -/
def readVar (s : VirtualMemory) (name : String) (len? : Option Nat) (offset : Nat) :
    Except MemError (Option (List Nat)) :=
  if ¬ s.hasVar name then .ok none
  else read s ((mapGet s.mappedAddressNames name).getD 0) len? offset

/-- `getVarAddress(name)`. -/
def getVarAddress (s : VirtualMemory) (name : String) : Option Nat :=
  if ¬ s.hasVar name then none
  else some ((mapGet s.mappedAddressNames name).getD 0)

/-- `memory.set(data, offset)`: overwrite bytes `[offset, offset + len(data))`
in place. -/
def setBytes (memo : List Nat) (offset : Nat) (data : List Nat) : List Nat :=
  memo.take offset ++ data ++ memo.drop (offset + data.length)

/-- `write(address, data, offset = 0)`.  The two `instanceof` guards always
pass in the model. -/
def write (s : VirtualMemory) (address : Nat) (data : List Nat) (offset : Nat) :
    Except MemError Bool × VirtualMemory :=
  if ¬ s.memHas address then (.ok false, s)
  else
    let memo := (mapGet s.memory address).getD []
    if memo.length ≤ offset then (.error (.rangeError "Invalid memory write offset"), s)
    else if data.length = 0 ∨ memo.length < offset + data.length then
      (.error (.rangeError "Invalid memory write data length"), s)
    else
      (.ok true, { s with memory := mapSet s.memory address (setBytes memo offset data) })

/-- `writeVar(name, data, offset = 0)`. -/
def writeVar (s : VirtualMemory) (name : String) (data : List Nat) (offset : Nat) :
    Except MemError Bool × VirtualMemory :=
  if ¬ s.hasVar name then (.ok false, s)
  else write s ((mapGet s.mappedAddressNames name).getD 0) data offset

/-- `copy(srcAddress, destAddress, length, srcOffset = 0, destOffset = 0)`.
`destMemory.set(srcMemory.subarray(...), destOffset)` reads the source bytes
as they were before the overwrite, which the model captures by taking the
source slice first. -/
def copy (s : VirtualMemory) (srcAddress destAddress : Nat) (len : Nat)
    (srcOffset destOffset : Nat) : Except MemError Bool × VirtualMemory :=
  if ¬ s.memHas srcAddress ∨ ¬ s.memHas destAddress then (.ok false, s)
  else
    let srcMemory := (mapGet s.memory srcAddress).getD []
    let destMemory := (mapGet s.memory destAddress).getD []
    if srcMemory.length ≤ srcOffset then
      (.error (.rangeError "Invalid memory copy source offset"), s)
    else if destMemory.length ≤ destOffset then
      (.error (.rangeError "Invalid memory copy destination offset"), s)
    else if len = 0 ∨ srcMemory.length < srcOffset + len ∨ destMemory.length < destOffset + len then
      (.error (.rangeError "Invalid memory copy length"), s)
    else
      let copied := (srcMemory.drop srcOffset).take len
      (.ok true, { s with memory := mapSet s.memory destAddress (setBytes destMemory destOffset copied) })

/-- `copyVar(srcName, destName, length, srcOffset = 0, destOffset = 0)`. -/
def copyVar (s : VirtualMemory) (srcName destName : String) (len : Nat)
    (srcOffset destOffset : Nat) : Except MemError Bool × VirtualMemory :=
  if ¬ s.hasVar srcName ∨ ¬ s.hasVar destName then (.ok false, s)
  else copy s ((mapGet s.mappedAddressNames srcName).getD 0)
    ((mapGet s.mappedAddressNames destName).getD 0) len srcOffset destOffset

/-- `fill(address, value, length, offset = 0)`: `Uint8Array.fill` coerces the
value to its low 8 bits. -/
def fill (s : VirtualMemory) (address : Nat) (value : Nat) (len : Nat) (offset : Nat) :
    Except MemError Bool × VirtualMemory :=
  if ¬ s.memHas address then (.ok false, s)
  else
    let memo := (mapGet s.memory address).getD []
    if memo.length ≤ offset then (.error (.rangeError "Invalid memory fill offset"), s)
    else if len = 0 ∨ memo.length < offset + len then
      (.error (.rangeError "Invalid memory fill length"), s)
    else
      let filled := List.replicate len (value % 256)
      (.ok true, { s with memory := mapSet s.memory address (setBytes memo offset filled) })

/-- `fillVar(name, value, length, offset = 0)`. -/
def fillVar (s : VirtualMemory) (name : String) (value : Nat) (len : Nat) (offset : Nat) :
    Except MemError Bool × VirtualMemory :=
  if ¬ s.hasVar name then (.ok false, s)
  else fill s ((mapGet s.mappedAddressNames name).getD 0) value len offset

/-- `clear(address, length, offset = 0)`. -/
def clear (s : VirtualMemory) (address : Nat) (len : Nat) (offset : Nat) :
    Except MemError Bool × VirtualMemory :=
  s.fill address 0 len offset

/-- `clearVar(name, length, offset = 0)`. -/
def clearVar (s : VirtualMemory) (name : String) (len : Nat) (offset : Nat) :
    Except MemError Bool × VirtualMemory :=
  s.fillVar name 0 len offset

end VirtualMemory

/-- Little-endian bytes of a value, fixed width: byte `i` is
`(v / 256 ^ i) % 256`.  The host runs little-endian, so this is the memory
image of the typed arrays used by the scalar writers. -/
def natToLEBytes : Nat → Nat → List Nat
  | 0, _ => []
  | w + 1, v => v % 256 :: natToLEBytes w (v / 256)

/-- Little-endian decode, the inverse reading of `natToLEBytes`. -/
def leDecode : List Nat → Nat
  | [] => 0
  | b :: rest => b + 256 * leDecode rest

/-- The wrap a `BigInt64Array` applies to a stored value: reduce into the
signed 64-bit range `[-2^63, 2^63)`. -/
def toSigned64 (v : Int) : Int := (v + 2 ^ 63) % 2 ^ 64 - 2 ^ 63

/-- Memory image of `new BigInt64Array([value])`: the two's-complement
little-endian bytes of the wrapped signed value. -/
def bigInt64Bytes (v : Int) : List Nat := natToLEBytes 8 (toSigned64 v % 2 ^ 64).toNat

/-- Memory image of `new BigUint64Array([value])`: the little-endian bytes of
the value reduced mod `2^64`. -/
def bigUint64Bytes (v : Int) : List Nat := natToLEBytes 8 (v % 2 ^ 64).toNat

namespace VirtualMemory

/-- `writeUint8(address, value, offset = 0)`: `new Uint8Array([value])`
coerces the value mod 256. -/
def writeUint8 (s : VirtualMemory) (address : Nat) (value : Nat) (offset : Nat) :
    Except MemError Bool × VirtualMemory :=
  write s address [value % 256] offset

/-- `writeUint16`: bytes of `new Uint16Array([value])`. -/
def writeUint16 (s : VirtualMemory) (address : Nat) (value : Nat) (offset : Nat) :
    Except MemError Bool × VirtualMemory :=
  write s address (natToLEBytes 2 value) offset

/-- `writeUint32`: bytes of `new Uint32Array([value])`. -/
def writeUint32 (s : VirtualMemory) (address : Nat) (value : Nat) (offset : Nat) :
    Except MemError Bool × VirtualMemory :=
  write s address (natToLEBytes 4 value) offset

/-- `writeUint64`: bytes of `new BigUint64Array([value])`. -/
def writeUint64 (s : VirtualMemory) (address : Nat) (value : Int) (offset : Nat) :
    Except MemError Bool × VirtualMemory :=
  write s address (bigUint64Bytes value) offset

/-- `writeInt8`: the buffer of `new Int8Array([value])` reinterpreted as
bytes is the unsigned residue of the value mod `2^8`. -/
def writeInt8 (s : VirtualMemory) (address : Nat) (value : Int) (offset : Nat) :
    Except MemError Bool × VirtualMemory :=
  write s address (natToLEBytes 1 (value % 2 ^ 8).toNat) offset

/-- `writeInt16`: two's-complement bytes, equal to the residue mod `2^16`. -/
def writeInt16 (s : VirtualMemory) (address : Nat) (value : Int) (offset : Nat) :
    Except MemError Bool × VirtualMemory :=
  write s address (natToLEBytes 2 (value % 2 ^ 16).toNat) offset

/-- `writeInt32`: two's-complement bytes, equal to the residue mod `2^32`. -/
def writeInt32 (s : VirtualMemory) (address : Nat) (value : Int) (offset : Nat) :
    Except MemError Bool × VirtualMemory :=
  write s address (natToLEBytes 4 (value % 2 ^ 32).toNat) offset

/-- `writeInt64`: bytes of `new BigInt64Array([value])`. -/
def writeInt64 (s : VirtualMemory) (address : Nat) (value : Int) (offset : Nat) :
    Except MemError Bool × VirtualMemory :=
  write s address (bigInt64Bytes value) offset

/-- `writeBigInt64`: bytes of `new BigUint64Array([value])`, exactly as
`writeUint64`. -/
def writeBigInt64 (s : VirtualMemory) (address : Nat) (value : Int) (offset : Nat) :
    Except MemError Bool × VirtualMemory :=
  write s address (bigUint64Bytes value) offset

/-- `readUint32(address, offset = 0)`.  The view handed back by `read` shares
its `buffer` with the whole stored block, so `new Uint32Array(data.buffer)`
views that buffer from byte 0: it throws a `RangeError` when the block length
is not a multiple of 4, and element `[0]` decodes bytes `[0, 4)` of the
block, not of the view. -/
def readUint32 (s : VirtualMemory) (address : Nat) (offset : Nat) : Except MemError Nat :=
  match read s address (some 4) offset with
  | .error e => .error e
  | .ok none => .ok 0
  | .ok (some _) =>
    let block := (mapGet s.memory address).getD []
    if block.length % 4 = 0 then .ok (leDecode (block.take 4))
    else .error (.rangeError "byte length of Uint32Array should be a multiple of 4")

end VirtualMemory

/-- `writeString(mem, value, offset = 0, encoding)`.  The host encoder
(`Buffer.from(value, encoding)` / `TextEncoder`) is passed in as `enc`.  A
throw from `alloc` or `write` propagates with the state those calls left
behind. -/
def writeString (s : VirtualMemory) (enc : String → List Nat) (value : String)
    (offset : Nat) : Except MemError (Option Nat) × VirtualMemory :=
  let encodedValue := enc value
  match s.alloc encodedValue.length with
  | (.error e, s1) => (.error e, s1)
  | (.ok addr, s1) =>
    match s1.write addr encodedValue offset with
    | (.error e, s2) => (.error e, s2)
    | (.ok true, s2) => (.ok (some addr), s2)
    | (.ok false, s2) => (.ok none, s2)

/-- `readString(mem, address, length?, offset = 0, encoding)`.  The host
decoder is passed in as `dec`. -/
def readString (s : VirtualMemory) (dec : List Nat → String) (address : Nat)
    (len? : Option Nat) (offset : Nat) : Except MemError (Option String) :=
  match s.read address len? offset with
  | .error e => .error e
  | .ok none => .ok none
  | .ok (some data) => .ok (some (dec data))

/-! Association-list lemmas for the `Map` model. -/

section MapLemmas

variable {α β : Type} [DecidableEq α]

theorem mapGet_mapSet_self (m : List (α × β)) (k : α) (v : β) :
    mapGet (mapSet m k v) k = some v := by
  induction m with
  | nil => simp [mapSet, mapGet]
  | cons p rest ih =>
      by_cases h : p.1 = k
      · simp [mapSet, h, mapGet]
      · simp [mapSet, h, mapGet, ih]

theorem mapGet_mapSet_ne (m : List (α × β)) (k k' : α) (v : β) (h : k' ≠ k) :
    mapGet (mapSet m k v) k' = mapGet m k' := by
  induction m with
  | nil => simp [mapSet, mapGet, Ne.symm h]
  | cons p rest ih =>
      by_cases hp : p.1 = k
      · have hp' : p.1 ≠ k' := by rw [hp]; exact Ne.symm h
        simp [mapSet, hp, mapGet, Ne.symm h, hp']
      · simp [mapSet, hp, mapGet, ih]

theorem mapGet_eq_none_iff (m : List (α × β)) (k : α) :
    mapGet m k = none ↔ k ∉ m.map Prod.fst := by
  induction m with
  | nil => simp [mapGet]
  | cons p rest ih =>
      by_cases hp : p.1 = k
      · simp [mapGet, hp]
      · simp [mapGet, hp, ih, Ne.symm hp]

theorem mapGet_isSome_of_mem {m : List (α × β)} {k : α} (h : k ∈ m.map Prod.fst) :
    ∃ b, mapGet m k = some b := by
  cases hk : mapGet m k with
  | none => exact absurd ((mapGet_eq_none_iff m k).mp hk) (by simp [h])
  | some b => exact ⟨b, rfl⟩

theorem mapGet_mapDelete_ne (m : List (α × β)) (k k' : α) (h : k' ≠ k) :
    mapGet (mapDelete m k) k' = mapGet m k' := by
  induction m with
  | nil => simp [mapDelete]
  | cons p rest ih =>
      by_cases hp : p.1 = k
      · simp [mapDelete, hp, mapGet, Ne.symm h]
      · simp [mapDelete, hp, mapGet, ih]

theorem mapGet_mapDelete_self (m : List (α × β)) (k : α)
    (hnd : (m.map Prod.fst).Nodup) : mapGet (mapDelete m k) k = none := by
  induction m with
  | nil => simp [mapDelete, mapGet]
  | cons p rest ih =>
      have hnd' : (p.1 :: rest.map Prod.fst).Nodup := by
        simpa only [List.map_cons] using hnd
      obtain ⟨hp, hrest⟩ := List.nodup_cons.mp hnd'
      by_cases hk : p.1 = k
      · simp only [mapDelete, hk, if_true]
        exact (mapGet_eq_none_iff rest k).mpr (hk ▸ hp)
      · simp [mapDelete, hk, mapGet, ih hrest]

theorem keys_mapSet_of_mem (m : List (α × β)) (k : α) (v : β)
    (h : k ∈ m.map Prod.fst) : (mapSet m k v).map Prod.fst = m.map Prod.fst := by
  induction m with
  | nil => simp at h
  | cons p rest ih =>
      by_cases hp : p.1 = k
      · simp [mapSet, hp]
      · have hmem : k ∈ rest.map Prod.fst := by
          have h' : k ∈ p.1 :: rest.map Prod.fst := by
            simpa only [List.map_cons] using h
          rcases List.mem_cons.mp h' with h'' | h''
          · exact absurd h''.symm hp
          · exact h''
        simp [mapSet, hp, ih hmem]

theorem keys_mapSet_of_not_mem (m : List (α × β)) (k : α) (v : β)
    (h : k ∉ m.map Prod.fst) : (mapSet m k v).map Prod.fst = m.map Prod.fst ++ [k] := by
  induction m with
  | nil => simp [mapSet]
  | cons p rest ih =>
      have hp : p.1 ≠ k := by intro hc; exact h (by simp [hc])
      have hrest : k ∉ rest.map Prod.fst := fun hc => h (by simp [hc])
      simp [mapSet, hp, ih hrest]

theorem nodup_keys_mapSet (m : List (α × β)) (k : α) (v : β)
    (h : (m.map Prod.fst).Nodup) : ((mapSet m k v).map Prod.fst).Nodup := by
  by_cases hk : k ∈ m.map Prod.fst
  · rw [keys_mapSet_of_mem m k v hk]; exact h
  · rw [keys_mapSet_of_not_mem m k v hk]
    refine List.nodup_append.mpr ⟨h, List.nodup_singleton k, ?_⟩
    intro x hx hx'
    rcases List.mem_singleton.mp hx' with rfl
    exact hk hx

theorem keys_mapDelete_sublist (m : List (α × β)) (k : α) :
    ((mapDelete m k).map Prod.fst).Sublist (m.map Prod.fst) := by
  induction m with
  | nil => simp [mapDelete]
  | cons p rest ih =>
      by_cases hp : p.1 = k
      · simp only [mapDelete, hp, if_true, List.map_cons]
        exact List.Sublist.cons _ (List.Sublist.refl _)
      · simp only [mapDelete, hp, if_false, List.map_cons]
        exact List.Sublist.cons₂ _ ih

theorem nodup_keys_mapDelete (m : List (α × β)) (k : α)
    (h : (m.map Prod.fst).Nodup) : ((mapDelete m k).map Prod.fst).Nodup :=
  (keys_mapDelete_sublist m k).nodup h

end MapLemmas

/-! Byte-sum lemmas. -/

theorem byteSum_mapSet_fresh (m : List (Nat × List Nat)) (k : Nat) (v : List Nat)
    (h : mapGet m k = none) :
    VirtualMemory.byteSum (mapSet m k v) = VirtualMemory.byteSum m + v.length := by
  induction m with
  | nil => simp [mapSet, VirtualMemory.byteSum]
  | cons p rest ih =>
      have hp : p.1 ≠ k := by
        intro hc
        simp [mapGet, hc] at h
      have hrest : mapGet rest k = none := by
        simpa [mapGet, hp] using h
      simp [mapSet, hp, VirtualMemory.byteSum, ih hrest]
      omega

theorem byteSum_mapSet_update (m : List (Nat × List Nat)) (k : Nat) (v b : List Nat)
    (h : mapGet m k = some b) (hlen : v.length = b.length) :
    VirtualMemory.byteSum (mapSet m k v) = VirtualMemory.byteSum m := by
  induction m with
  | nil => simp [mapGet] at h
  | cons p rest ih =>
      by_cases hp : p.1 = k
      · have hb : b = p.2 := by
          have := h
          simp [mapGet, hp] at this
          exact this.symm
        simp [mapSet, hp, VirtualMemory.byteSum, hb ▸ hlen]
      · have hrest : mapGet rest k = some b := by simpa [mapGet, hp] using h
        simp [mapSet, hp, VirtualMemory.byteSum, ih hrest]

theorem byteSum_mapDelete_le (m : List (Nat × List Nat)) (k : Nat) :
    VirtualMemory.byteSum (mapDelete m k) ≤ VirtualMemory.byteSum m := by
  induction m with
  | nil => simp [mapDelete]
  | cons p rest ih =>
      by_cases hp : p.1 = k <;> simp [mapDelete, hp, VirtualMemory.byteSum] <;> omega

/-! Lemmas about `setBytes` and the probe. -/

theorem setBytes_length (memo : List Nat) (offset : Nat) (data : List Nat)
    (h : offset + data.length ≤ memo.length) :
    (VirtualMemory.setBytes memo offset data).length = memo.length := by
  simp [VirtualMemory.setBytes]
  omega

namespace VirtualMemory

theorem probeFrom_not_mem (keys : List Nat) (a : Nat) : probeFrom keys a ∉ keys := by
  induction a using probeFrom.induct keys with
  | case1 x hx ih => rw [probeFrom, if_pos hx]; exact ih
  | case2 x hx => rw [probeFrom, if_neg hx]; exact hx

theorem le_probeFrom (keys : List Nat) (a : Nat) : a ≤ probeFrom keys a := by
  induction a using probeFrom.induct keys with
  | case1 x hx ih => rw [probeFrom, if_pos hx]; omega
  | case2 x hx => rw [probeFrom, if_neg hx]

theorem probeFrom_min (keys : List Nat) (a : Nat) :
    ∀ b, a ≤ b → b < probeFrom keys a → b ∈ keys := by
  induction a using probeFrom.induct keys with
  | case1 x hx ih =>
      intro b hab hb
      rw [probeFrom, if_pos hx] at hb
      rcases Nat.eq_or_lt_of_le hab with rfl | hlt
      · exact hx
      · exact ih b hlt hb
  | case2 x hx =>
      intro b hab hb
      rw [probeFrom, if_neg hx] at hb
      omega

end VirtualMemory

/-! State-machine view: one `Step` per state-changing public operation, and
`Reachable` for the states a `VirtualMemory` instance can actually be in. -/

/-- One call of a state-changing operation, with arbitrary arguments; the
target is the state the instance holds after the call, whether the call
succeeded, returned a sentinel or threw. -/
inductive Step : VirtualMemory → VirtualMemory → Prop
  | alloc (s : VirtualMemory) (sz : Nat) : Step s (s.alloc sz).2
  | setVar (s : VirtualMemory) (n : String) (a : Nat) : Step s (s.setVar n a).2
  | free (s : VirtualMemory) (a : Nat) : Step s (s.free a).2
  | freeVar (s : VirtualMemory) (n : String) : Step s (s.freeVar n).2
  | erase (s : VirtualMemory) : Step s s.erase
  | write (s : VirtualMemory) (a : Nat) (d : List Nat) (off : Nat) : Step s (s.write a d off).2
  | writeVar (s : VirtualMemory) (n : String) (d : List Nat) (off : Nat) :
      Step s (s.writeVar n d off).2
  | copy (s : VirtualMemory) (a1 a2 len o1 o2 : Nat) : Step s (s.copy a1 a2 len o1 o2).2
  | copyVar (s : VirtualMemory) (n1 n2 : String) (len o1 o2 : Nat) :
      Step s (s.copyVar n1 n2 len o1 o2).2
  | fill (s : VirtualMemory) (a v len off : Nat) : Step s (s.fill a v len off).2
  | fillVar (s : VirtualMemory) (n : String) (v len off : Nat) : Step s (s.fillVar n v len off).2
  | clear (s : VirtualMemory) (a len off : Nat) : Step s (s.clear a len off).2
  | clearVar (s : VirtualMemory) (n : String) (len off : Nat) : Step s (s.clearVar n len off).2
  | writeUint8 (s : VirtualMemory) (a v off : Nat) : Step s (s.writeUint8 a v off).2
  | writeUint16 (s : VirtualMemory) (a v off : Nat) : Step s (s.writeUint16 a v off).2
  | writeUint32 (s : VirtualMemory) (a v off : Nat) : Step s (s.writeUint32 a v off).2
  | writeUint64 (s : VirtualMemory) (a : Nat) (v : Int) (off : Nat) :
      Step s (s.writeUint64 a v off).2
  | writeInt8 (s : VirtualMemory) (a : Nat) (v : Int) (off : Nat) : Step s (s.writeInt8 a v off).2
  | writeInt16 (s : VirtualMemory) (a : Nat) (v : Int) (off : Nat) : Step s (s.writeInt16 a v off).2
  | writeInt32 (s : VirtualMemory) (a : Nat) (v : Int) (off : Nat) : Step s (s.writeInt32 a v off).2
  | writeInt64 (s : VirtualMemory) (a : Nat) (v : Int) (off : Nat) : Step s (s.writeInt64 a v off).2
  | writeBigInt64 (s : VirtualMemory) (a : Nat) (v : Int) (off : Nat) :
      Step s (s.writeBigInt64 a v off).2
  | writeString (s : VirtualMemory) (enc : String → List Nat) (v : String) (off : Nat) :
      Step s (writeString s enc v off).2

/-- The states an instance can be in: freshly constructed (under the
capacity ceiling the constructor enforces) or one operation later. -/
inductive Reachable : VirtualMemory → Prop
  | init (c : Nat) (h : c ≤ MAX_SAFE_MEMORY_SIZE) : Reachable (VirtualMemory.init c)
  | step {s s' : VirtualMemory} : Reachable s → Step s s' → Reachable s'

/-- The inductive invariant: total stored bytes within capacity, no duplicate
addresses in the block store, and the occupied-addresses list empty (nothing
ever appends to it). -/
def goodState (s : VirtualMemory) : Prop :=
  s.byteLength ≤ s.capacity ∧ (s.memory.map Prod.fst).Nodup ∧ s.occupiedAddresses = []

namespace VirtualMemory

theorem memHas_iff_mem_keys (s : VirtualMemory) (a : Nat) :
    s.memHas a = true ↔ a ∈ s.memory.map Prod.fst := by
  rw [memHas, mapHas, Option.isSome_iff_ne_none, ne_eq, mapGet_eq_none_iff]
  simp

theorem mapGet_allocAddress_eq_none (s : VirtualMemory) :
    mapGet s.memory (allocAddress s) = none :=
  (mapGet_eq_none_iff _ _).mpr (probeFrom_not_mem _ _)

theorem alloc_goodState (s : VirtualMemory) (sz : Nat) (h : goodState s) :
    goodState (s.alloc sz).2 := by
  unfold alloc
  split_ifs with h1 h2
  · exact h
  · exact h
  · obtain ⟨hcap, hnd, hocc⟩ := h
    simp only [goodState, byteLength]
    refine ⟨?_, nodup_keys_mapSet _ _ _ hnd, hocc⟩
    rw [byteSum_mapSet_fresh _ _ _ (mapGet_allocAddress_eq_none s)]
    simp only [List.length_replicate]
    rw [byteLength] at h2 hcap
    omega

theorem free_goodState (s : VirtualMemory) (a : Nat) (h : goodState s) :
    goodState (s.free a).2 := by
  unfold free
  split_ifs with h1
  case neg => exact h
  case pos =>
    obtain ⟨hcap, hnd, hocc⟩ := h
    simp only [goodState, byteLength]
    refine ⟨le_trans (byteSum_mapDelete_le s.memory a) hcap, nodup_keys_mapDelete _ _ hnd, ?_⟩
    simp [hocc]

theorem write_goodState (s : VirtualMemory) (a : Nat) (d : List Nat) (off : Nat)
    (h : goodState s) : goodState (s.write a d off).2 := by
  simp only [write]
  split_ifs with h1 h2 h3
  any_goals exact h
  obtain ⟨hcap, hnd, hocc⟩ := h
  have hmem : s.memHas a = true := by
    revert h1
    by_cases hc : s.memHas a = true <;> simp [hc]
  have hsome : ∃ b, mapGet s.memory a = some b :=
    mapGet_isSome_of_mem ((memHas_iff_mem_keys s a).mp hmem)
  obtain ⟨b, hb⟩ := hsome
  have hmemo : (mapGet s.memory a).getD [] = b := by rw [hb]; rfl
  simp only [goodState, byteLength]
  refine ⟨?_, nodup_keys_mapSet _ _ _ hnd, hocc⟩
  rw [byteSum_mapSet_update s.memory a _ b hb]
  · exact hcap
  · rw [hmemo]
    apply setBytes_length
    rw [hmemo] at h3
    omega

theorem fill_goodState (s : VirtualMemory) (a v len off : Nat)
    (h : goodState s) : goodState (s.fill a v len off).2 := by
  simp only [fill]
  split_ifs with h1 h2 h3
  any_goals exact h
  obtain ⟨hcap, hnd, hocc⟩ := h
  have hmem : s.memHas a = true := by
    revert h1
    by_cases hc : s.memHas a = true <;> simp [hc]
  obtain ⟨b, hb⟩ := mapGet_isSome_of_mem ((memHas_iff_mem_keys s a).mp hmem)
  have hmemo : (mapGet s.memory a).getD [] = b := by rw [hb]; rfl
  simp only [goodState, byteLength]
  refine ⟨?_, nodup_keys_mapSet _ _ _ hnd, hocc⟩
  rw [byteSum_mapSet_update s.memory a _ b hb]
  · exact hcap
  · rw [hmemo]
    apply setBytes_length
    simp only [List.length_replicate]
    rw [hmemo] at h3
    omega

theorem clear_goodState (s : VirtualMemory) (a len off : Nat)
    (h : goodState s) : goodState (s.clear a len off).2 :=
  fill_goodState s a 0 len off h

theorem copy_goodState (s : VirtualMemory) (a1 a2 len o1 o2 : Nat)
    (h : goodState s) : goodState (s.copy a1 a2 len o1 o2).2 := by
  simp only [copy]
  split_ifs with h1 h2 h3 h4
  any_goals exact h
  obtain ⟨hcap, hnd, hocc⟩ := h
  have hmem2 : s.memHas a2 = true := by
    by_contra hc
    exact h1 (Or.inr (by simpa using hc))
  obtain ⟨b2, hb2⟩ := mapGet_isSome_of_mem ((memHas_iff_mem_keys s a2).mp hmem2)
  have hmemo2 : (mapGet s.memory a2).getD [] = b2 := by rw [hb2]; rfl
  have hmem1 : s.memHas a1 = true := by
    by_contra hc
    exact h1 (Or.inl (by simpa using hc))
  obtain ⟨b1, hb1⟩ := mapGet_isSome_of_mem ((memHas_iff_mem_keys s a1).mp hmem1)
  have hmemo1 : (mapGet s.memory a1).getD [] = b1 := by rw [hb1]; rfl
  simp only [goodState, byteLength]
  refine ⟨?_, nodup_keys_mapSet _ _ _ hnd, hocc⟩
  rw [byteSum_mapSet_update s.memory a2 _ b2 hb2]
  · exact hcap
  · rw [hmemo2]
    apply setBytes_length
    rw [hmemo1, hmemo2] at h4
    rw [hmemo1]
    simp only [List.length_take, List.length_drop]
    omega

theorem erase_goodState (s : VirtualMemory) (h : goodState s) : goodState s.erase := by
  refine ⟨?_, ?_, rfl⟩ <;> simp [erase, byteLength, byteSum]

theorem setVar_goodState (s : VirtualMemory) (n : String) (a : Nat)
    (h : goodState s) : goodState (s.setVar n a).2 := by
  unfold setVar
  split_ifs <;> exact h

theorem freeVar_goodState (s : VirtualMemory) (n : String)
    (h : goodState s) : goodState (s.freeVar n).2 := by
  unfold freeVar
  split_ifs with h1
  · exact free_goodState _ _ h
  · exact h

theorem writeVar_goodState (s : VirtualMemory) (n : String) (d : List Nat) (off : Nat)
    (h : goodState s) : goodState (s.writeVar n d off).2 := by
  unfold writeVar
  split_ifs with h1
  · exact write_goodState _ _ _ _ h
  · exact h

theorem copyVar_goodState (s : VirtualMemory) (n1 n2 : String) (len o1 o2 : Nat)
    (h : goodState s) : goodState (s.copyVar n1 n2 len o1 o2).2 := by
  unfold copyVar
  split_ifs with h1
  · exact h
  · exact copy_goodState _ _ _ _ _ _ h

theorem fillVar_goodState (s : VirtualMemory) (n : String) (v len off : Nat)
    (h : goodState s) : goodState (s.fillVar n v len off).2 := by
  unfold fillVar
  split_ifs with h1
  · exact fill_goodState _ _ _ _ _ h
  · exact h

theorem clearVar_goodState (s : VirtualMemory) (n : String) (len off : Nat)
    (h : goodState s) : goodState (s.clearVar n len off).2 :=
  fillVar_goodState s n 0 len off h

end VirtualMemory

theorem writeString_goodState (s : VirtualMemory) (enc : String → List Nat)
    (v : String) (off : Nat) (h : goodState s) : goodState (writeString s enc v off).2 := by
  have h1 : goodState (s.alloc (enc v).length).2 := VirtualMemory.alloc_goodState _ _ h
  rcases halloc : s.alloc (enc v).length with ⟨r, s1⟩
  rw [halloc] at h1
  simp only [writeString, halloc]
  cases r with
  | error e => exact h1
  | ok addr =>
      have h2 : goodState (s1.write addr (enc v) off).2 :=
        VirtualMemory.write_goodState _ _ _ _ h1
      rcases hwrite : s1.write addr (enc v) off with ⟨r2, s2⟩
      rw [hwrite] at h2
      simp only [hwrite]
      cases r2 with
      | error e => exact h2
      | ok b => cases b <;> exact h2

/-- Every single operation preserves the invariant. -/
theorem step_goodState {s s' : VirtualMemory} (h : Step s s') (hg : goodState s) :
    goodState s' := by
  cases h with
  | alloc sz => exact VirtualMemory.alloc_goodState s sz hg
  | setVar n a => exact VirtualMemory.setVar_goodState s n a hg
  | free a => exact VirtualMemory.free_goodState s a hg
  | freeVar n => exact VirtualMemory.freeVar_goodState s n hg
  | erase => exact VirtualMemory.erase_goodState s hg
  | write a d off => exact VirtualMemory.write_goodState s a d off hg
  | writeVar n d off => exact VirtualMemory.writeVar_goodState s n d off hg
  | copy a1 a2 len o1 o2 => exact VirtualMemory.copy_goodState s a1 a2 len o1 o2 hg
  | copyVar n1 n2 len o1 o2 => exact VirtualMemory.copyVar_goodState s n1 n2 len o1 o2 hg
  | fill a v len off => exact VirtualMemory.fill_goodState s a v len off hg
  | fillVar n v len off => exact VirtualMemory.fillVar_goodState s n v len off hg
  | clear a len off => exact VirtualMemory.clear_goodState s a len off hg
  | clearVar n len off => exact VirtualMemory.clearVar_goodState s n len off hg
  | writeUint8 a v off => exact VirtualMemory.write_goodState s a _ off hg
  | writeUint16 a v off => exact VirtualMemory.write_goodState s a _ off hg
  | writeUint32 a v off => exact VirtualMemory.write_goodState s a _ off hg
  | writeUint64 a v off => exact VirtualMemory.write_goodState s a _ off hg
  | writeInt8 a v off => exact VirtualMemory.write_goodState s a _ off hg
  | writeInt16 a v off => exact VirtualMemory.write_goodState s a _ off hg
  | writeInt32 a v off => exact VirtualMemory.write_goodState s a _ off hg
  | writeInt64 a v off => exact VirtualMemory.write_goodState s a _ off hg
  | writeBigInt64 a v off => exact VirtualMemory.write_goodState s a _ off hg
  | writeString enc v off => exact writeString_goodState s enc v off hg

/-- Every reachable state satisfies the invariant. -/
theorem reachable_goodState {s : VirtualMemory} (h : Reachable s) : goodState s := by
  induction h with
  | init c hc =>
      refine ⟨?_, ?_, rfl⟩ <;> simp [VirtualMemory.init, VirtualMemory.byteLength, VirtualMemory.byteSum]
  | step hr hstep ih => exact step_goodState hstep ih

/-! Concrete instances used to exercise the theorems below. -/

/-- A concrete text codec to instantiate the encoder parameter: each
character becomes its code point (the identity on ASCII, where it agrees
with UTF-8). -/
def demoEnc (v : String) : List Nat := v.data.map Char.toNat

/-- The matching decoder for `demoEnc`. -/
def demoDec (l : List Nat) : String := String.mk (l.map Char.ofNat)

/-- A state holding one two-byte block at address 0. -/
def pairState : VirtualMemory :=
  { mappedAddressNames := [], memory := [(0, [7, 7])], occupiedAddresses := [], capacity := 10 }

/-- A state holding one one-byte block at address 0. -/
def oneByteState : VirtualMemory :=
  { mappedAddressNames := [], memory := [(0, [7])], occupiedAddresses := [], capacity := 10 }

/-- A state holding one eight-byte block at address 0 whose first four bytes
decode to 1 and last four to 2. -/
def twoWordState : VirtualMemory :=
  { mappedAddressNames := [], memory := [(0, [1, 0, 0, 0, 2, 0, 0, 0])],
    occupiedAddresses := [], capacity := 100 }

/-- A state with one live one-byte block at address 0 and two names bound to
address 0. -/
def twoNameState : VirtualMemory :=
  { mappedAddressNames := [("x", 0), ("y", 0)], memory := [(0, [9])],
    occupiedAddresses := [], capacity := 10 }

/-! Claim C5. -/

/-- Claim C5: whenever the underlying 4-byte read fails to produce data
(`read` returns `null`, which happens exactly when the address is not live),
`readUint32` returns `0` instead of raising an error, so its result cannot
distinguish a failed read from a stored zero. -/
theorem readUint32_zero_on_failed_read (s : VirtualMemory) (a off : Nat)
    (h : s.read a (some 4) off = .ok none) : s.readUint32 a off = .ok 0 := by
  unfold VirtualMemory.readUint32
  rw [h]

/-- Witness for C5 at an empty address space. -/
theorem readUint32_zero_on_failed_read_witness :
    (VirtualMemory.init 80).read 0 (some 4) 0 = .ok none ∧
    (VirtualMemory.init 80).readUint32 0 0 = .ok 0 :=
  ⟨by rfl, readUint32_zero_on_failed_read (VirtualMemory.init 80) 0 0 (by rfl)⟩

/-! Claim C9. -/

theorem bigInt64Bytes_eq_bigUint64Bytes (v : Int) : bigInt64Bytes v = bigUint64Bytes v := by
  unfold bigInt64Bytes bigUint64Bytes
  congr 1
  have h : toSigned64 v % 2 ^ 64 = v % 2 ^ 64 := by
    unfold toSigned64
    omega
  rw [h]

/-- Claim C9: the signed 64-bit writer and the unsigned (big) 64-bit writer
write identical bytes (the two's-complement residue of the value mod `2^64`),
have identical effect on the state, and return the same result. -/
theorem writeInt64_eq_writeBigInt64 (s : VirtualMemory) (a : Nat) (v : Int) (off : Nat) :
    s.writeInt64 a v off = s.writeBigInt64 a v off ∧ bigInt64Bytes v = bigUint64Bytes v := by
  have h := bigInt64Bytes_eq_bigUint64Bytes v
  constructor
  · unfold VirtualMemory.writeInt64 VirtualMemory.writeBigInt64
    rw [h]
  · exact h

/-! Claim C10. -/

/-- Claim C10: for every state and offset, `writeString` of the empty string
(whose encoding is empty) raises the allocation size-error before touching
anything: it never returns an address or `null`, and the state is returned
unchanged. -/
theorem writeString_empty_raises (s : VirtualMemory) (enc : String → List Nat) (off : Nat)
    (h : enc "" = []) :
    writeString s enc "" off =
      (.error (.rangeError "Memory allocation size must be greater than 0"), s) := by
  unfold writeString VirtualMemory.alloc
  simp [h]

/-- Witness for C10 with the concrete codec, at a nonzero offset. -/
theorem writeString_empty_raises_witness :
    writeString (VirtualMemory.init 80) demoEnc "" 3 =
      (.error (.rangeError "Memory allocation size must be greater than 0"),
        VirtualMemory.init 80) :=
  writeString_empty_raises (VirtualMemory.init 80) demoEnc 3 (by decide)

/-! Claim C4. -/

/-- Claim C4 fails on the code: with the block `[1,0,0,0,2,0,0,0]` at
address 0, `readUint32(0, 4)` returns the decode of bytes `[0,4)` of the
block (that is 1), not the decode of bytes `[4,8)` (that is 2), because
`new Uint32Array(data.buffer)` views the whole stored buffer from byte 0. -/
theorem readUint32_reads_block_start :
    twoWordState.readUint32 0 4 = .ok 1 ∧
    leDecode ((([1, 0, 0, 0, 2, 0, 0, 0] : List Nat).drop 4).take 4) = 2 :=
  ⟨by rfl, by decide⟩

/-! Claim C1. -/

/-- Claim C1 fails as stated on the code: the empty buffer satisfies
`len(d) ≤ L`, but `write` raises the data-length range-error on it instead of
returning `true`, because of the `data.byteLength <= 0` check. -/
theorem write_empty_buffer_fails :
    mapGet oneByteState.memory 0 = some [7] ∧ ([] : List Nat).length ≤ 1 ∧
    oneByteState.write 0 [] 0 =
      (.error (.rangeError "Invalid memory write data length"), oneByteState) :=
  ⟨by decide, by decide, by rfl⟩

/-- Claim C1 (amended): for every live address whose block is `block` and
every non-empty `d` with `len(d) ≤ len(block)`, `write(a, d, 0)` returns
`true` and replaces the block by `d` followed by the old tail, an immediately
following `read(a, len(d), 0)` returns exactly `d`, and nothing else of the
state changes. -/
theorem write_read_roundtrip (s : VirtualMemory) (a : Nat) (block d : List Nat)
    (hb : mapGet s.memory a = some block) (h0 : 0 < d.length) (hle : d.length ≤ block.length) :
    s.write a d 0 = (.ok true,
      { s with memory := mapSet s.memory a (d ++ block.drop d.length) }) ∧
    (s.write a d 0).2.read a (some d.length) 0 = .ok (some d) ∧
    (∀ a', a' ≠ a → mapGet (s.write a d 0).2.memory a' = mapGet s.memory a') ∧
    (s.write a d 0).2.mappedAddressNames = s.mappedAddressNames ∧
    (s.write a d 0).2.occupiedAddresses = s.occupiedAddresses ∧
    (s.write a d 0).2.capacity = s.capacity := by
  have hmem : s.memHas a = true := by
    unfold VirtualMemory.memHas mapHas
    rw [hb]
    rfl
  have hmemo : (mapGet s.memory a).getD [] = block := by rw [hb]; rfl
  have hwrite : s.write a d 0 = (.ok true,
      { s with memory := mapSet s.memory a (d ++ block.drop d.length) }) := by
    unfold VirtualMemory.write
    rw [hmem]
    simp only [hmemo]
    have hoff : ¬ (block.length ≤ 0) := by omega
    have hlen : ¬ (d.length = 0 ∨ block.length < 0 + d.length) := by omega
    simp only [hoff, hlen, if_false, if_true, ite_false, ite_true]
    unfold VirtualMemory.setBytes
    simp
  refine ⟨hwrite, ?_, ?_, ?_, ?_, ?_⟩
  · rw [hwrite]
    unfold VirtualMemory.read
    have hhas : VirtualMemory.memHas
        { s with memory := mapSet s.memory a (d ++ block.drop d.length) } a = true := by
      unfold VirtualMemory.memHas mapHas
      rw [mapGet_mapSet_self]
      rfl
    rw [hhas]
    simp only [mapGet_mapSet_self]
    have hlen2 : (d ++ block.drop d.length).length = block.length := by
      simp
      omega
    have hoff : ¬ ((d ++ block.drop d.length).length ≤ 0) := by rw [hlen2]; omega
    have hl : ¬ (d.length = 0 ∨ (d ++ block.drop d.length).length < 0 + d.length) := by
      rw [hlen2]; omega
    simp only [Option.getD_some, hoff, hl, if_false, ite_false]
    simp [List.take_append_of_le_length]
  · intro a' ha'
    rw [hwrite]
    exact mapGet_mapSet_ne _ _ _ _ ha'
  · rw [hwrite]
  · rw [hwrite]
  · rw [hwrite]

/-- Witness for the amended C1 at a two-byte block. -/
theorem write_read_roundtrip_witness :
    (pairState.write 0 [1] 0).2.read 0 (some 1) 0 = .ok (some [1]) :=
  (write_read_roundtrip pairState 0 [7, 7] [1] (by decide) (by decide) (by decide)).2.1

/-! Claim C7. -/

/-- The number of names currently bound to an address. -/
def countBound (names : List (String × Nat)) (a : Nat) : Nat :=
  (names.filter fun p => p.2 = a).length

theorem removeFirstBound_count (names : List (String × Nat)) (a : Nat) :
    countBound (VirtualMemory.removeFirstBound names a) a = countBound names a - 1 := by
  induction names with
  | nil => rfl
  | cons p rest ih =>
      by_cases hp : p.2 = a
      · simp [VirtualMemory.removeFirstBound, hp, countBound, List.filter_cons]
      · simp [VirtualMemory.removeFirstBound, hp, countBound, List.filter_cons]
        simpa [countBound] using ih

theorem removeFirstBound_mem_iff (names : List (String × Nat)) (a : Nat)
    (p : String × Nat) (hp : p.2 ≠ a) :
    p ∈ names ↔ p ∈ VirtualMemory.removeFirstBound names a := by
  induction names with
  | nil => simp [VirtualMemory.removeFirstBound]
  | cons q rest ih =>
      by_cases hq : q.2 = a
      · simp only [VirtualMemory.removeFirstBound, hq, if_true, List.mem_cons]
        constructor
        · rintro (rfl | h)
          · exact absurd hq hp
          · exact h
        · exact Or.inr
      · simp only [VirtualMemory.removeFirstBound, hq, if_false, List.mem_cons]
        rw [ih]

/-- Claim C7: `free` of a non-live address returns `false` without error and
without changing anything (so a second `free` of a just-freed address returns
`false`); `free` of a live address returns `true`, removes the block, and
removes exactly the first name bound to that address when one exists, leaving
every name bound to any other address in place.  The no-duplicate-keys
hypothesis holds in every reachable state (`reachable_goodState`). -/
theorem free_spec (s : VirtualMemory) (a : Nat)
    (hnd : (s.memory.map Prod.fst).Nodup) :
    (s.memHas a = false → s.free a = (.ok false, s)) ∧
    (s.memHas a = true →
      (s.free a).1 = .ok true ∧
      (s.free a).2.memHas a = false ∧
      (s.free a).2.free a = (.ok false, (s.free a).2) ∧
      countBound (s.free a).2.mappedAddressNames a = countBound s.mappedAddressNames a - 1 ∧
      (∀ p : String × Nat, p.2 ≠ a →
        (p ∈ s.mappedAddressNames ↔ p ∈ (s.free a).2.mappedAddressNames))) := by
  constructor
  · intro h
    unfold VirtualMemory.free
    rw [h]
    simp
  · intro h
    have hfree : s.free a = (.ok true,
        { s with
          memory := mapDelete s.memory a
          occupiedAddresses := s.occupiedAddresses.filter (fun occupiedAddress => occupiedAddress ≠ a)
          mappedAddressNames := VirtualMemory.removeFirstBound s.mappedAddressNames a }) := by
      unfold VirtualMemory.free
      rw [h]
      simp
    have hgone : (s.free a).2.memHas a = false := by
      rw [hfree]
      unfold VirtualMemory.memHas mapHas
      rw [mapGet_mapDelete_self _ _ hnd]
      rfl
    refine ⟨by rw [hfree], hgone, ?_, ?_, ?_⟩
    · have hgone' := hgone
      rw [hfree] at hgone'
      rw [hfree]
      unfold VirtualMemory.free
      rw [hgone']
      simp
    · rw [hfree]
      exact removeFirstBound_count s.mappedAddressNames a
    · intro p hp
      rw [hfree]
      exact removeFirstBound_mem_iff s.mappedAddressNames a p hp

/-- Witness for C7: freeing address 0 with two names bound to it removes the
block and exactly one of the two names. -/
theorem free_spec_witness :
    (twoNameState.free 0).1 = .ok true ∧
    countBound (twoNameState.free 0).2.mappedAddressNames 0 = 1 := by
  have h := (free_spec twoNameState 0 (by decide)).2 (by rfl)
  refine ⟨h.1, ?_⟩
  rw [h.2.2.2.1]
  decide

/-! Claim C2. -/

/-- Claim C2: in every reachable state the occupied-addresses list is empty
(nothing ever appends to it, so it never influences address selection), and
`alloc` of a positive size that fits under capacity returns exactly the
smallest address that is at least the current number of live blocks and is
not itself live — a function of the set of live blocks alone. -/
theorem alloc_returns_least_free_address (s : VirtualMemory) (h : Reachable s) :
    s.occupiedAddresses = [] ∧
    ∀ sz : Nat, 0 < sz → s.byteLength + sz ≤ s.capacity →
      (s.alloc sz).1 = .ok (VirtualMemory.allocAddress s) ∧
      s.size ≤ VirtualMemory.allocAddress s ∧
      s.memHas (VirtualMemory.allocAddress s) = false ∧
      (∀ b, s.size ≤ b → b < VirtualMemory.allocAddress s → s.memHas b = true) := by
  obtain ⟨hcap, hnd, hocc⟩ := reachable_goodState h
  refine ⟨hocc, ?_⟩
  intro sz hsz hcapsz
  have hstart : VirtualMemory.allocStart s = s.size := by
    unfold VirtualMemory.allocStart
    rw [hocc]
    simp
  have h1 : ¬ (sz = 0) := by omega
  have h2 : ¬ (s.capacity < s.byteLength + sz) := by omega
  refine ⟨?_, ?_, ?_, ?_⟩
  · unfold VirtualMemory.alloc
    rw [if_neg h1, if_neg h2]
  · have hle : VirtualMemory.allocStart s ≤ VirtualMemory.allocAddress s :=
      VirtualMemory.le_probeFrom (s.memory.map Prod.fst) (VirtualMemory.allocStart s)
    rw [hstart] at hle
    exact hle
  · have hnot : VirtualMemory.allocAddress s ∉ s.memory.map Prod.fst :=
      VirtualMemory.probeFrom_not_mem (s.memory.map Prod.fst) (VirtualMemory.allocStart s)
    cases hx : s.memHas (VirtualMemory.allocAddress s) with
    | false => rfl
    | true => exact absurd ((VirtualMemory.memHas_iff_mem_keys s _).mp hx) hnot
  · intro b hb hblt
    have hmem : b ∈ s.memory.map Prod.fst := by
      refine VirtualMemory.probeFrom_min (s.memory.map Prod.fst)
        (VirtualMemory.allocStart s) b ?_ hblt
      rw [hstart]
      exact hb
    exact (VirtualMemory.memHas_iff_mem_keys s b).mpr hmem

/-- Witness for C2 at a freshly constructed space. -/
theorem alloc_returns_least_free_address_witness :
    ((VirtualMemory.init 80).alloc 1).1 =
      .ok (VirtualMemory.allocAddress (VirtualMemory.init 80)) :=
  ((alloc_returns_least_free_address (VirtualMemory.init 80)
    (Reachable.init 80 (by decide))).2 1 (by decide) (by decide)).1

/-! Per-operation block-length preservation (for claim C3). -/

namespace VirtualMemory

theorem mapSet_blockLength {m : List (Nat × List Nat)} {k : Nat} {v : List Nat} {a : Nat}
    {b b' : List Nat} (hlen : ∀ bb, mapGet m k = some bb → v.length = bb.length)
    (hb : mapGet m a = some b) (hb' : mapGet (mapSet m k v) a = some b') :
    b'.length = b.length := by
  by_cases hak : a = k
  · subst hak
    rw [mapGet_mapSet_self] at hb'
    cases hb'
    exact hlen b hb
  · rw [mapGet_mapSet_ne _ _ _ _ hak] at hb'
    rw [hb] at hb'
    cases hb'
    rfl

theorem write_blockLength (s : VirtualMemory) (k : Nat) (d : List Nat) (off : Nat)
    {a : Nat} {b b' : List Nat} (hb : mapGet s.memory a = some b)
    (hb' : mapGet (s.write k d off).2.memory a = some b') : b'.length = b.length := by
  simp only [write] at hb'
  split_ifs at hb' with h1 h2 h3
  case neg =>
    refine mapSet_blockLength ?_ hb hb'
    intro bb hbb
    rw [hbb] at h3 ⊢
    simp only [Option.getD_some] at h3 ⊢
    apply setBytes_length
    omega
  all_goals (cases hb.symm.trans hb'; rfl)

theorem fill_blockLength (s : VirtualMemory) (k v len off : Nat)
    {a : Nat} {b b' : List Nat} (hb : mapGet s.memory a = some b)
    (hb' : mapGet (s.fill k v len off).2.memory a = some b') : b'.length = b.length := by
  simp only [fill] at hb'
  split_ifs at hb' with h1 h2 h3
  case neg =>
    refine mapSet_blockLength ?_ hb hb'
    intro bb hbb
    rw [hbb] at h3 ⊢
    simp only [Option.getD_some] at h3 ⊢
    apply setBytes_length
    simp only [List.length_replicate]
    omega
  all_goals (cases hb.symm.trans hb'; rfl)

theorem copy_blockLength (s : VirtualMemory) (a1 a2 len o1 o2 : Nat)
    {a : Nat} {b b' : List Nat} (hb : mapGet s.memory a = some b)
    (hb' : mapGet (s.copy a1 a2 len o1 o2).2.memory a = some b') : b'.length = b.length := by
  simp only [copy] at hb'
  split_ifs at hb' with h1 h2 h3 h4
  case neg =>
    refine mapSet_blockLength ?_ hb hb'
    intro bb hbb
    rw [hbb] at h4 ⊢
    simp only [Option.getD_some] at h4 ⊢
    apply setBytes_length
    simp only [List.length_take, List.length_drop]
    omega
  all_goals (cases hb.symm.trans hb'; rfl)

theorem clear_blockLength (s : VirtualMemory) (k len off : Nat)
    {a : Nat} {b b' : List Nat} (hb : mapGet s.memory a = some b)
    (hb' : mapGet (s.clear k len off).2.memory a = some b') : b'.length = b.length :=
  fill_blockLength s k 0 len off hb hb'

theorem alloc_mapGet_preserved (s : VirtualMemory) (sz : Nat) {a : Nat} {b : List Nat}
    (hb : mapGet s.memory a = some b) : mapGet (s.alloc sz).2.memory a = some b := by
  unfold alloc
  split_ifs with h1 h2
  · exact hb
  · exact hb
  · have hne : a ≠ allocAddress s := by
      intro hc
      rw [hc, mapGet_allocAddress_eq_none s] at hb
      cases hb
    show mapGet (mapSet s.memory (allocAddress s) (List.replicate sz 0)) a = some b
    rw [mapGet_mapSet_ne _ _ _ _ hne]
    exact hb

theorem alloc_blockLength (s : VirtualMemory) (sz : Nat)
    {a : Nat} {b b' : List Nat} (hb : mapGet s.memory a = some b)
    (hb' : mapGet (s.alloc sz).2.memory a = some b') : b'.length = b.length := by
  have h := alloc_mapGet_preserved s sz hb
  cases h.symm.trans hb'
  rfl

theorem free_blockLength (s : VirtualMemory) (k : Nat)
    (hnd : (s.memory.map Prod.fst).Nodup) {a : Nat} {b b' : List Nat}
    (hb : mapGet s.memory a = some b)
    (hb' : mapGet (s.free k).2.memory a = some b') : b'.length = b.length := by
  unfold free at hb'
  split_ifs at hb' with h1
  case neg => cases hb.symm.trans hb'; rfl
  case pos =>
    have hb'' : mapGet (mapDelete s.memory k) a = some b' := hb'
    by_cases hak : a = k
    · subst hak
      rw [mapGet_mapDelete_self _ _ hnd] at hb''
      cases hb''
    · rw [mapGet_mapDelete_ne _ _ _ hak] at hb''
      cases hb.symm.trans hb''
      rfl

theorem setVar_memory (s : VirtualMemory) (n : String) (a0 : Nat) :
    (s.setVar n a0).2.memory = s.memory := by
  unfold setVar
  split_ifs <;> rfl

theorem erase_blockLength (s : VirtualMemory)
    {a : Nat} {b' : List Nat}
    (hb' : mapGet s.erase.memory a = some b') : False := by
  have : mapGet ([] : List (Nat × List Nat)) a = some b' := hb'
  simp [mapGet] at this

theorem freeVar_blockLength (s : VirtualMemory) (n : String)
    (hnd : (s.memory.map Prod.fst).Nodup) {a : Nat} {b b' : List Nat}
    (hb : mapGet s.memory a = some b)
    (hb' : mapGet (s.freeVar n).2.memory a = some b') : b'.length = b.length := by
  unfold freeVar at hb'
  split_ifs at hb' with h1
  · exact free_blockLength s _ hnd hb hb'
  · cases hb.symm.trans hb'; rfl

theorem writeVar_blockLength (s : VirtualMemory) (n : String) (d : List Nat) (off : Nat)
    {a : Nat} {b b' : List Nat} (hb : mapGet s.memory a = some b)
    (hb' : mapGet (s.writeVar n d off).2.memory a = some b') : b'.length = b.length := by
  unfold writeVar at hb'
  split_ifs at hb' with h1
  · exact write_blockLength s _ d off hb hb'
  · cases hb.symm.trans hb'; rfl

theorem copyVar_blockLength (s : VirtualMemory) (n1 n2 : String) (len o1 o2 : Nat)
    {a : Nat} {b b' : List Nat} (hb : mapGet s.memory a = some b)
    (hb' : mapGet (s.copyVar n1 n2 len o1 o2).2.memory a = some b') : b'.length = b.length := by
  unfold copyVar at hb'
  split_ifs at hb' with h1
  · cases hb.symm.trans hb'; rfl
  · exact copy_blockLength s _ _ len o1 o2 hb hb'

theorem fillVar_blockLength (s : VirtualMemory) (n : String) (v len off : Nat)
    {a : Nat} {b b' : List Nat} (hb : mapGet s.memory a = some b)
    (hb' : mapGet (s.fillVar n v len off).2.memory a = some b') : b'.length = b.length := by
  unfold fillVar at hb'
  split_ifs at hb' with h1
  · exact fill_blockLength s _ v len off hb hb'
  · cases hb.symm.trans hb'; rfl

theorem clearVar_blockLength (s : VirtualMemory) (n : String) (len off : Nat)
    {a : Nat} {b b' : List Nat} (hb : mapGet s.memory a = some b)
    (hb' : mapGet (s.clearVar n len off).2.memory a = some b') : b'.length = b.length :=
  fillVar_blockLength s n 0 len off hb hb'

end VirtualMemory

theorem writeString_blockLength (s : VirtualMemory) (enc : String → List Nat) (v : String)
    (off : Nat) {a : Nat} {b b' : List Nat} (hb : mapGet s.memory a = some b)
    (hb' : mapGet (writeString s enc v off).2.memory a = some b') : b'.length = b.length := by
  have hb1 : mapGet (s.alloc (enc v).length).2.memory a = some b :=
    VirtualMemory.alloc_mapGet_preserved s _ hb
  rcases halloc : s.alloc (enc v).length with ⟨r, s1⟩
  rw [halloc] at hb1
  simp only [writeString, halloc] at hb'
  cases r with
  | error e => cases hb1.symm.trans hb'; rfl
  | ok addr =>
      rcases hwrite : s1.write addr (enc v) off with ⟨r2, s2⟩
      simp only [hwrite] at hb'
      have hbw : mapGet (s1.write addr (enc v) off).2.memory a = some b' := by
        rw [hwrite]
        cases r2 with
        | error e => exact hb'
        | ok bo => cases bo <;> exact hb'
      exact VirtualMemory.write_blockLength s1 addr (enc v) off hb1 hbw

/-- One step never changes the length of a block that persists across it. -/
theorem step_blockLength {s s' : VirtualMemory}
    (hnd : (s.memory.map Prod.fst).Nodup) (hstep : Step s s')
    {a : Nat} {b b' : List Nat} (hb : mapGet s.memory a = some b)
    (hb' : mapGet s'.memory a = some b') : b'.length = b.length := by
  cases hstep with
  | alloc sz => exact VirtualMemory.alloc_blockLength s sz hb hb'
  | setVar n a0 =>
      rw [VirtualMemory.setVar_memory] at hb'
      cases hb.symm.trans hb'
      rfl
  | free a0 => exact VirtualMemory.free_blockLength s a0 hnd hb hb'
  | freeVar n => exact VirtualMemory.freeVar_blockLength s n hnd hb hb'
  | erase => exact (VirtualMemory.erase_blockLength s hb').elim
  | write a0 d off => exact VirtualMemory.write_blockLength s a0 d off hb hb'
  | writeVar n d off => exact VirtualMemory.writeVar_blockLength s n d off hb hb'
  | copy a1 a2 len o1 o2 => exact VirtualMemory.copy_blockLength s a1 a2 len o1 o2 hb hb'
  | copyVar n1 n2 len o1 o2 => exact VirtualMemory.copyVar_blockLength s n1 n2 len o1 o2 hb hb'
  | fill a0 v len off => exact VirtualMemory.fill_blockLength s a0 v len off hb hb'
  | fillVar n v len off => exact VirtualMemory.fillVar_blockLength s n v len off hb hb'
  | clear a0 len off => exact VirtualMemory.clear_blockLength s a0 len off hb hb'
  | clearVar n len off => exact VirtualMemory.clearVar_blockLength s n len off hb hb'
  | writeUint8 a0 v off => exact VirtualMemory.write_blockLength s a0 _ off hb hb'
  | writeUint16 a0 v off => exact VirtualMemory.write_blockLength s a0 _ off hb hb'
  | writeUint32 a0 v off => exact VirtualMemory.write_blockLength s a0 _ off hb hb'
  | writeUint64 a0 v off => exact VirtualMemory.write_blockLength s a0 _ off hb hb'
  | writeInt8 a0 v off => exact VirtualMemory.write_blockLength s a0 _ off hb hb'
  | writeInt16 a0 v off => exact VirtualMemory.write_blockLength s a0 _ off hb hb'
  | writeInt32 a0 v off => exact VirtualMemory.write_blockLength s a0 _ off hb hb'
  | writeInt64 a0 v off => exact VirtualMemory.write_blockLength s a0 _ off hb hb'
  | writeBigInt64 a0 v off => exact VirtualMemory.write_blockLength s a0 _ off hb hb'
  | writeString enc v off => exact writeString_blockLength s enc v off hb hb'

/-! Claim C3. -/

/-- Claim C3: in every reachable state the sum of live block lengths is
bounded by the capacity fixed at construction (`alloc` checks the bound
before inserting a block), and no single operation changes the length of a
block that exists before and after it. -/
theorem total_bytes_within_capacity :
    (∀ s : VirtualMemory, Reachable s → s.byteLength ≤ s.capacity) ∧
    (∀ s s' : VirtualMemory, Reachable s → Step s s' →
      ∀ (a : Nat) (b b' : List Nat), mapGet s.memory a = some b →
        mapGet s'.memory a = some b' → b'.length = b.length) := by
  constructor
  · intro s h
    exact (reachable_goodState h).1
  · intro s s' hr hstep a b b' hb hb'
    exact step_blockLength (reachable_goodState hr).2.1 hstep hb hb'

/-- The state after `alloc(1)` on a fresh space of capacity 10. -/
def oneBlockState : VirtualMemory :=
  { mappedAddressNames := [], memory := [(0, [0])], occupiedAddresses := [], capacity := 10 }

theorem init10_alloc_eq : (VirtualMemory.init 10).alloc 1 = (.ok 0, oneBlockState) := by
  have haddr : VirtualMemory.allocAddress (VirtualMemory.init 10) = 0 := by
    unfold VirtualMemory.allocAddress VirtualMemory.allocStart
    simp only [VirtualMemory.init, VirtualMemory.size, List.length_nil, List.map_nil]
    rw [VirtualMemory.probeFrom]
    simp
  unfold VirtualMemory.alloc
  rw [haddr]
  simp [VirtualMemory.init, VirtualMemory.byteLength, VirtualMemory.byteSum, mapSet, oneBlockState]

theorem reachable_oneBlockState : Reachable oneBlockState := by
  have h := Reachable.step (Reachable.init 10 (by decide)) (Step.alloc (VirtualMemory.init 10) 1)
  rw [init10_alloc_eq] at h
  exact h

/-- Witness for C3: a reachable one-block state is within capacity, and a
write step into it preserves the length of the block. -/
theorem total_bytes_within_capacity_witness :
    oneBlockState.byteLength ≤ oneBlockState.capacity ∧
    ([5] : List Nat).length = ([0] : List Nat).length :=
  ⟨total_bytes_within_capacity.1 oneBlockState reachable_oneBlockState,
   total_bytes_within_capacity.2 oneBlockState (oneBlockState.write 0 [5] 0).2
     reachable_oneBlockState (Step.write oneBlockState 0 [5] 0) 0 [0] [5]
     (by rfl) (by rfl)⟩

/-! Atomicity helpers (for claims C6 and C8): each operation either succeeds
or returns its input state untouched; `writeString` at offset 0 as well. -/

theorem mapSet_mapSet {α β : Type} [DecidableEq α] (m : List (α × β)) (k : α) (v1 v2 : β) :
    mapSet (mapSet m k v1) k v2 = mapSet m k v2 := by
  induction m with
  | nil => simp [mapSet]
  | cons p rest ih =>
      by_cases hp : p.1 = k
      · simp [mapSet, hp]
      · simp [mapSet, hp, ih]

namespace VirtualMemory

theorem alloc_atomic (s : VirtualMemory) (sz : Nat) :
    (s.alloc sz).2 = s ∨ ∃ addr, (s.alloc sz).1 = .ok addr := by
  unfold alloc
  split_ifs <;> simp

theorem setVar_atomic (s : VirtualMemory) (n : String) (a : Nat) :
    (s.setVar n a).2 = s ∨ (s.setVar n a).1 = .ok () := by
  unfold setVar
  split_ifs <;> simp

theorem free_atomic (s : VirtualMemory) (a : Nat) :
    (s.free a).2 = s ∨ (s.free a).1 = .ok true := by
  unfold free
  split_ifs <;> simp

theorem freeVar_atomic (s : VirtualMemory) (n : String) :
    (s.freeVar n).2 = s ∨ (s.freeVar n).1 = .ok true := by
  unfold freeVar
  split_ifs with h1
  · exact free_atomic s _
  · left
    rfl

theorem write_atomic (s : VirtualMemory) (a : Nat) (d : List Nat) (off : Nat) :
    (s.write a d off).2 = s ∨ (s.write a d off).1 = .ok true := by
  simp only [write]
  split_ifs <;> simp

theorem writeVar_atomic (s : VirtualMemory) (n : String) (d : List Nat) (off : Nat) :
    (s.writeVar n d off).2 = s ∨ (s.writeVar n d off).1 = .ok true := by
  unfold writeVar
  split_ifs with h1
  · exact write_atomic s _ d off
  · left
    rfl

theorem copy_atomic (s : VirtualMemory) (a1 a2 len o1 o2 : Nat) :
    (s.copy a1 a2 len o1 o2).2 = s ∨ (s.copy a1 a2 len o1 o2).1 = .ok true := by
  simp only [copy]
  split_ifs <;> simp

theorem copyVar_atomic (s : VirtualMemory) (n1 n2 : String) (len o1 o2 : Nat) :
    (s.copyVar n1 n2 len o1 o2).2 = s ∨ (s.copyVar n1 n2 len o1 o2).1 = .ok true := by
  unfold copyVar
  split_ifs with h1
  · left
    rfl
  · exact copy_atomic s _ _ len o1 o2

theorem fill_atomic (s : VirtualMemory) (a vl len off : Nat) :
    (s.fill a vl len off).2 = s ∨ (s.fill a vl len off).1 = .ok true := by
  simp only [fill]
  split_ifs <;> simp

theorem fillVar_atomic (s : VirtualMemory) (n : String) (vl len off : Nat) :
    (s.fillVar n vl len off).2 = s ∨ (s.fillVar n vl len off).1 = .ok true := by
  unfold fillVar
  split_ifs with h1
  · exact fill_atomic s _ vl len off
  · left
    rfl

theorem clear_atomic (s : VirtualMemory) (a len off : Nat) :
    (s.clear a len off).2 = s ∨ (s.clear a len off).1 = .ok true :=
  fill_atomic s a 0 len off

theorem clearVar_atomic (s : VirtualMemory) (n : String) (len off : Nat) :
    (s.clearVar n len off).2 = s ∨ (s.clearVar n len off).1 = .ok true :=
  fillVar_atomic s n 0 len off

/-- The three possible outcomes of `alloc`, with the success state written
out. -/
theorem alloc_cases (s : VirtualMemory) (sz : Nat) :
    ((s.alloc sz).2 = s ∧ ∃ e, (s.alloc sz).1 = .error e) ∨
    (sz ≠ 0 ∧ s.byteLength + sz ≤ s.capacity ∧
      s.alloc sz = (.ok (allocAddress s),
        { s with memory := mapSet s.memory (allocAddress s) (List.replicate sz 0) })) := by
  unfold alloc
  split_ifs with h1 h2
  · left
    exact ⟨rfl, _, rfl⟩
  · left
    exact ⟨rfl, _, rfl⟩
  · right
    exact ⟨h1, by omega, rfl⟩

/-- A full-block write at offset 0 into a freshly allocated block of exactly
the data length always succeeds and stores the data. -/
theorem write_full_fresh (s1 : VirtualMemory) (addr : Nat) (data : List Nat)
    (hmemo : mapGet s1.memory addr = some (List.replicate data.length 0))
    (hlen : data.length ≠ 0) :
    s1.write addr data 0 = (.ok true, { s1 with memory := mapSet s1.memory addr data }) := by
  have hhas : s1.memHas addr = true := by
    unfold memHas mapHas
    rw [hmemo]
    rfl
  unfold write
  rw [hhas]
  simp only [hmemo, Option.getD_some, List.length_replicate]
  have hoff : ¬ (data.length ≤ 0) := by omega
  have hl : ¬ (data.length = 0 ∨ data.length < 0 + data.length) := by omega
  simp only [hoff, hl, if_false, ite_false]
  have hset : setBytes (List.replicate data.length 0) 0 data = data := by
    unfold setBytes
    simp
  rw [hset]
  simp

end VirtualMemory

open VirtualMemory in
/-- `writeString` at offset 0 with a non-empty encoding that fits under
capacity: the full success equation. -/
theorem writeString_success_eq (s : VirtualMemory) (enc : String → List Nat) (v : String)
    (hlen : 0 < (enc v).length) (hcap : s.byteLength + (enc v).length ≤ s.capacity) :
    writeString s enc v 0 = (.ok (some (allocAddress s)),
      { s with memory := mapSet s.memory (allocAddress s) (enc v) }) := by
  have h1 : ¬ ((enc v).length = 0) := by omega
  have h2 : ¬ (s.capacity < s.byteLength + (enc v).length) := by omega
  have halloc : s.alloc (enc v).length = (.ok (allocAddress s),
      { s with memory := mapSet s.memory (allocAddress s) (List.replicate (enc v).length 0) }) := by
    unfold VirtualMemory.alloc
    rw [if_neg h1, if_neg h2]
  have hmemo : mapGet (mapSet s.memory (allocAddress s) (List.replicate (enc v).length 0))
      (allocAddress s) = some (List.replicate (enc v).length 0) := mapGet_mapSet_self _ _ _
  have hwrite := VirtualMemory.write_full_fresh
    { s with memory := mapSet s.memory (allocAddress s) (List.replicate (enc v).length 0) }
    (allocAddress s) (enc v) hmemo h1
  simp only [writeString, halloc, hwrite]
  rw [mapSet_mapSet]

open VirtualMemory in
/-- `writeString` at offset 0 is atomic: it either throws with the state
unchanged or returns an address. -/
theorem writeString_offset_zero_atomic (s : VirtualMemory) (enc : String → List Nat)
    (v : String) :
    (writeString s enc v 0).2 = s ∨ ∃ addr, (writeString s enc v 0).1 = .ok (some addr) := by
  rcases VirtualMemory.alloc_cases s (enc v).length with ⟨hstate, e, herr⟩ | ⟨h1, h2, hok⟩
  · left
    rcases halloc : s.alloc (enc v).length with ⟨r, s1⟩
    rw [halloc] at hstate herr
    simp only [writeString, halloc]
    simp only at hstate herr
    rw [herr]
    exact hstate
  · right
    have hsucc := writeString_success_eq s enc v (by omega) h2
    exact ⟨allocAddress s, by rw [hsucc]⟩

/-! Claim C6. -/

/-- Claim C6 fails as stated on the code: `writeString` at a nonzero offset
raises the write-offset range-error but leaves the block it had just
allocated in memory, a partial-failure state. -/
theorem writeString_nonzero_offset_not_atomic :
    (writeString (VirtualMemory.init 10) demoEnc "A" 1).1 =
      .error (.rangeError "Invalid memory write offset") ∧
    (writeString (VirtualMemory.init 10) demoEnc "A" 1).2 ≠ VirtualMemory.init 10 := by
  have henc : demoEnc "A" = [65] := by rfl
  have hwrite : oneBlockState.write 0 [65] 1 =
      (.error (.rangeError "Invalid memory write offset"), oneBlockState) := by rfl
  have heq : writeString (VirtualMemory.init 10) demoEnc "A" 1 =
      (.error (.rangeError "Invalid memory write offset"), oneBlockState) := by
    simp only [writeString, henc, List.length_cons, List.length_nil, Nat.zero_add,
      init10_alloc_eq, hwrite]
  rw [heq]
  exact ⟨rfl, by decide⟩

/-- Claim C6 (amended): every `VirtualMemory` method either fully applies its
effect (success result) or returns with the AddressSpace exactly unchanged,
whether it fails by typed error or by `false`/`null` sentinel; `writeString`
has this property only at offset 0 — at a nonzero offset a failing run leaks
the freshly allocated block. -/
theorem failing_operations_leave_state_unchanged :
    (∀ (s : VirtualMemory) (sz : Nat), (s.alloc sz).2 = s ∨ ∃ addr, (s.alloc sz).1 = .ok addr) ∧
    (∀ (s : VirtualMemory) (n : String) (a : Nat),
      (s.setVar n a).2 = s ∨ (s.setVar n a).1 = .ok ()) ∧
    (∀ (s : VirtualMemory) (a : Nat), (s.free a).2 = s ∨ (s.free a).1 = .ok true) ∧
    (∀ (s : VirtualMemory) (n : String), (s.freeVar n).2 = s ∨ (s.freeVar n).1 = .ok true) ∧
    (∀ (s : VirtualMemory) (a : Nat) (d : List Nat) (off : Nat),
      (s.write a d off).2 = s ∨ (s.write a d off).1 = .ok true) ∧
    (∀ (s : VirtualMemory) (n : String) (d : List Nat) (off : Nat),
      (s.writeVar n d off).2 = s ∨ (s.writeVar n d off).1 = .ok true) ∧
    (∀ (s : VirtualMemory) (a1 a2 len o1 o2 : Nat),
      (s.copy a1 a2 len o1 o2).2 = s ∨ (s.copy a1 a2 len o1 o2).1 = .ok true) ∧
    (∀ (s : VirtualMemory) (n1 n2 : String) (len o1 o2 : Nat),
      (s.copyVar n1 n2 len o1 o2).2 = s ∨ (s.copyVar n1 n2 len o1 o2).1 = .ok true) ∧
    (∀ (s : VirtualMemory) (a vl len off : Nat),
      (s.fill a vl len off).2 = s ∨ (s.fill a vl len off).1 = .ok true) ∧
    (∀ (s : VirtualMemory) (n : String) (vl len off : Nat),
      (s.fillVar n vl len off).2 = s ∨ (s.fillVar n vl len off).1 = .ok true) ∧
    (∀ (s : VirtualMemory) (a len off : Nat),
      (s.clear a len off).2 = s ∨ (s.clear a len off).1 = .ok true) ∧
    (∀ (s : VirtualMemory) (n : String) (len off : Nat),
      (s.clearVar n len off).2 = s ∨ (s.clearVar n len off).1 = .ok true) ∧
    (∀ (s : VirtualMemory) (a vl off : Nat),
      (s.writeUint8 a vl off).2 = s ∨ (s.writeUint8 a vl off).1 = .ok true) ∧
    (∀ (s : VirtualMemory) (a vl off : Nat),
      (s.writeUint16 a vl off).2 = s ∨ (s.writeUint16 a vl off).1 = .ok true) ∧
    (∀ (s : VirtualMemory) (a vl off : Nat),
      (s.writeUint32 a vl off).2 = s ∨ (s.writeUint32 a vl off).1 = .ok true) ∧
    (∀ (s : VirtualMemory) (a : Nat) (vl : Int) (off : Nat),
      (s.writeUint64 a vl off).2 = s ∨ (s.writeUint64 a vl off).1 = .ok true) ∧
    (∀ (s : VirtualMemory) (a : Nat) (vl : Int) (off : Nat),
      (s.writeInt8 a vl off).2 = s ∨ (s.writeInt8 a vl off).1 = .ok true) ∧
    (∀ (s : VirtualMemory) (a : Nat) (vl : Int) (off : Nat),
      (s.writeInt16 a vl off).2 = s ∨ (s.writeInt16 a vl off).1 = .ok true) ∧
    (∀ (s : VirtualMemory) (a : Nat) (vl : Int) (off : Nat),
      (s.writeInt32 a vl off).2 = s ∨ (s.writeInt32 a vl off).1 = .ok true) ∧
    (∀ (s : VirtualMemory) (a : Nat) (vl : Int) (off : Nat),
      (s.writeInt64 a vl off).2 = s ∨ (s.writeInt64 a vl off).1 = .ok true) ∧
    (∀ (s : VirtualMemory) (a : Nat) (vl : Int) (off : Nat),
      (s.writeBigInt64 a vl off).2 = s ∨ (s.writeBigInt64 a vl off).1 = .ok true) ∧
    (∀ (s : VirtualMemory) (enc : String → List Nat) (v : String),
      (writeString s enc v 0).2 = s ∨ ∃ addr, (writeString s enc v 0).1 = .ok (some addr)) :=
  ⟨VirtualMemory.alloc_atomic, VirtualMemory.setVar_atomic, VirtualMemory.free_atomic,
   VirtualMemory.freeVar_atomic, VirtualMemory.write_atomic, VirtualMemory.writeVar_atomic,
   VirtualMemory.copy_atomic, VirtualMemory.copyVar_atomic, VirtualMemory.fill_atomic,
   VirtualMemory.fillVar_atomic, VirtualMemory.clear_atomic, VirtualMemory.clearVar_atomic,
   fun s a vl off => VirtualMemory.write_atomic s a _ off,
   fun s a vl off => VirtualMemory.write_atomic s a _ off,
   fun s a vl off => VirtualMemory.write_atomic s a _ off,
   fun s a vl off => VirtualMemory.write_atomic s a _ off,
   fun s a vl off => VirtualMemory.write_atomic s a _ off,
   fun s a vl off => VirtualMemory.write_atomic s a _ off,
   fun s a vl off => VirtualMemory.write_atomic s a _ off,
   fun s a vl off => VirtualMemory.write_atomic s a _ off,
   fun s a vl off => VirtualMemory.write_atomic s a _ off,
   writeString_offset_zero_atomic⟩

/-! Claim C8. -/

/-- Claim C8 fails as stated on the code: for the empty string (whose
encoding is empty in any text encoding), `writeString` raises the allocation
size-error instead of returning an address, so the round trip cannot even
start. -/
theorem writeString_empty_string_no_address :
    (writeString (VirtualMemory.init 80) demoEnc "" 0).1 =
      .error (.rangeError "Memory allocation size must be greater than 0") ∧
    (writeString (VirtualMemory.init 80) demoEnc "" 0).2 = VirtualMemory.init 80 :=
  ⟨by rfl, by rfl⟩

open VirtualMemory in
/-- Claim C8 (amended): for every string whose encoding is non-empty and fits
under the remaining capacity, and a decoder matching the encoder,
`writeString` returns an address and `readString` at that address with the
encoded length decodes back to exactly the original string. -/
theorem writeString_readString_roundtrip (s : VirtualMemory) (enc : String → List Nat)
    (dec : List Nat → String) (v : String) (hdec : dec (enc v) = v)
    (hlen : 0 < (enc v).length) (hcap : s.byteLength + (enc v).length ≤ s.capacity) :
    ∃ (addr : Nat) (s' : VirtualMemory), writeString s enc v 0 = (.ok (some addr), s') ∧
      readString s' dec addr (some (enc v).length) 0 = .ok (some v) := by
  refine ⟨allocAddress s, _, writeString_success_eq s enc v hlen hcap, ?_⟩
  have hget : mapGet (mapSet s.memory (allocAddress s) (enc v)) (allocAddress s) =
      some (enc v) := mapGet_mapSet_self _ _ _
  have hhas : VirtualMemory.memHas
      { s with memory := mapSet s.memory (allocAddress s) (enc v) } (allocAddress s) = true := by
    unfold VirtualMemory.memHas mapHas
    rw [hget]
    rfl
  unfold readString VirtualMemory.read
  rw [hhas]
  simp only [hget, Option.getD_some]
  have hoff : ¬ ((enc v).length ≤ 0) := by omega
  have hl : ¬ ((enc v).length = 0 ∨ (enc v).length < 0 + (enc v).length) := by omega
  simp only [hoff, hl, if_false, ite_false, if_true, ite_true]
  simp [hdec]

/-- Witness for the amended C8 with the concrete codec. -/
theorem writeString_readString_roundtrip_witness :
    ∃ (addr : Nat) (s' : VirtualMemory),
      writeString (VirtualMemory.init 80) demoEnc "A" 0 = (.ok (some addr), s') ∧
      readString s' demoDec addr (some (demoEnc "A").length) 0 = .ok (some "A") :=
  writeString_readString_roundtrip (VirtualMemory.init 80) demoEnc demoDec "A"
    (by decide) (by decide) (by decide)
